import Mathlib

/-!
Shallow embedding of the laptop-dataset preparation scripts
(`scripts/clean_laptop_dataset.py` and `scripts/split_laptop_dataset.py`)
and proofs about them.

Modelling conventions:
* Machine floats are modelled by `ℚ` (all constants involved are decimal
  literals, and the properties checked are order comparisons).
* A label file is modelled as the list of its lines, each line already
  cut into whitespace-separated tokens; a token is abstracted by its
  parse behaviour (`Token`).
* The file system is abstracted away: an image file is a record of the
  attributes the pipeline reads from it (name, content hash, sibling
  label file, decode result, brightness, enhancement success), and
  writes to the output directory are collected into an explicit list.
-/

namespace LaptopDS

/-! ### Tokens of a label line

A label line in the scripts is processed by `line.strip().split()` and
then `int(parts[0])` / `float(parts[i])`.  A token is abstracted by its
parse behaviour: `tint n` parses as the integer `n` (and hence also as
the number `n`), `tfloat q` parses as the number `q` but not as an
integer, `tbad` parses as neither and makes `int()` / `float()` raise
`ValueError`. -/

inductive Token where
  | tint (n : ℤ)
  | tfloat (q : ℚ)
  | tbad
deriving DecidableEq

/-- Result of Python `int(tok)` on a token. -/
def parseIntTok : Token → Option ℤ
  | .tint n => some n
  | _ => none

/-- Result of Python `float(tok)` on a token. -/
def parseFloatTok : Token → Option ℚ
  | .tint n => some (n : ℚ)
  | .tfloat q => some q
  | .tbad => none

/-- Body of the per-line loop of `validate_bounding_boxes`
(`clean_laptop_dataset.py` lines 56-84): exactly 5 tokens, the first an
integer, the rest numbers, centre coordinates in `[0,1]`, sizes in
`(0,1]`, and the derived box inside `[0,1]` with `min < max` on both
axes. -/
def checkLine (parts : List Token) : Bool :=
  match parts with
  | [p0, p1, p2, p3, p4] =>
    match parseIntTok p0 with
    | none => false
    | some _ =>
      match parseFloatTok p1 with
      | none => false
      | some x_center =>
        match parseFloatTok p2 with
        | none => false
        | some y_center =>
          match parseFloatTok p3 with
          | none => false
          | some width =>
            match parseFloatTok p4 with
            | none => false
            | some height =>
              if ¬ (0 ≤ x_center ∧ x_center ≤ 1 ∧ 0 ≤ y_center ∧ y_center ≤ 1) then
                false
              else if ¬ (0 < width ∧ width ≤ 1 ∧ 0 < height ∧ height ≤ 1) then
                false
              else
                let x_min := x_center - width / 2
                let x_max := x_center + width / 2
                let y_min := y_center - height / 2
                let y_max := y_center + height / 2
                if ¬ (0 ≤ x_min ∧ x_min < x_max ∧ x_max ≤ 1 ∧
                      0 ≤ y_min ∧ y_min < y_max ∧ y_max ≤ 1) then false
                else true
  | _ => false

/-- `validate_bounding_boxes` (`clean_laptop_dataset.py` lines 41-89).
`none` models a label path that does not exist; `some lines` models an
existing file whose lines split into the given token lists.  An empty
file is invalid; otherwise every line must pass `checkLine`. -/
def validate_bounding_boxes (label : Option (List (List Token))) : Bool :=
  match label with
  | none => false
  | some lines =>
    if lines.isEmpty then false
    else lines.all checkLine

/-! ### The claim C1, stated from the specification text -/

/-- One line as described by the spec: exactly 5 tokens, first an
integer, remaining four numbers, centres in `[0,1]`, sizes in `(0,1]`,
derived box inside `[0,1]` on both axes with min strictly below max. -/
def lineOkSpec (line : List Token) : Prop :=
  ∃ t0 t1 t2 t3 t4, line = [t0, t1, t2, t3, t4] ∧
    (∃ c, parseIntTok t0 = some c) ∧
    ∃ x y w h, parseFloatTok t1 = some x ∧ parseFloatTok t2 = some y ∧
      parseFloatTok t3 = some w ∧ parseFloatTok t4 = some h ∧
      (0 ≤ x ∧ x ≤ 1 ∧ 0 ≤ y ∧ y ≤ 1) ∧
      (0 < w ∧ w ≤ 1 ∧ 0 < h ∧ h ≤ 1) ∧
      (0 ≤ x - w / 2 ∧ x - w / 2 < x + w / 2 ∧ x + w / 2 ≤ 1 ∧
       0 ≤ y - h / 2 ∧ y - h / 2 < y + h / 2 ∧ y + h / 2 ≤ 1)

/-- A label file as described by the spec: at least one line, and every
line is a valid bounding-box entry. -/
def labelOkSpec (lines : List (List Token)) : Prop :=
  lines ≠ [] ∧ ∀ line ∈ lines, lineOkSpec line

/-! ### Filenames

Filenames are lists of characters.  `pySuffix` models Python
`pathlib.Path.suffix` (the part of the name from its last dot, empty
when there is no dot, when the last dot is the first character, or when
it is the final character).  `lowerStr` models `str.lower` on the ASCII
range, which covers every extension the scripts compare against. -/

def lowerChar (c : Char) : Char :=
  if 'A' ≤ c ∧ c ≤ 'Z' then Char.ofNat (c.toNat + 32) else c

def lowerStr (s : List Char) : List Char := s.map lowerChar

/-- The characters of `name` after its last dot (all of `name` when
there is no dot). -/
def afterLastDot (name : List Char) : List Char :=
  (name.reverse.takeWhile (fun c => c ≠ '.')).reverse

/-- Python `Path.suffix`: `name[i:]` where `i` is the index of the last
dot, provided `0 < i < len(name) - 1`, and `""` otherwise. -/
def pySuffix (name : List Char) : List Char :=
  let after := afterLastDot name
  if after.length = name.length then []
  else if after.length = 0 then []
  else if after.length = name.length - 1 then []
  else '.' :: after

/-- The extension set of `clean_dataset`
(`clean_laptop_dataset.py` line 172): `.jpg`, `.jpeg`, `.png`. -/
def image_extensions : List (List Char) :=
  [['.', 'j', 'p', 'g'], ['.', 'j', 'p', 'e', 'g'], ['.', 'p', 'n', 'g']]

/-- Discovery filter of `clean_dataset` (lines 173-174):
`f.suffix.lower() in image_extensions`. -/
def extOk (name : List Char) : Bool :=
  decide (lowerStr (pySuffix name) ∈ image_extensions)

def isPrefixB : List Char → List Char → Bool
  | [], _ => true
  | _ :: _, [] => false
  | a :: as, b :: bs => a == b && isPrefixB as bs

/-- `name` ends with `pat` (how `Path.glob` with a `*.ext` pattern
selects names on a case-sensitive file system). -/
def endsWithL (name pat : List Char) : Bool :=
  isPrefixB pat.reverse name.reverse

/-- `source_dir.glob("*.jpg")` membership (`split_laptop_dataset.py`
line 42). -/
def globJpg (name : List Char) : Bool :=
  endsWithL name ['.', 'j', 'p', 'g']

/-- `source_dir.glob("*.jpeg")` membership (`split_laptop_dataset.py`
line 42). -/
def globJpeg (name : List Char) : Bool :=
  endsWithL name ['.', 'j', 'p', 'e', 'g']

/-! ### The cleaning pipeline (`clean_dataset`, lines 139-252)

A source image is a record of everything `clean_dataset` reads from the
file system about one image file:
* `name`: the filename;
* `hash`: the MD5 of the file bytes (byte-identical files have equal
  hashes, and hash collisions between distinct contents are ignored, as
  the spec allows);
* `label`: `none` when no sibling `<stem>.txt` exists, otherwise the
  token lines of that file;
* `decoded`: `some m` when `cv2.imread` succeeds and the grayscale mean
  is `m`, `none` when decoding fails (`imread` returns `None`);
* `brightnessRaises`: whether the brightness computation raises an
  exception (caught by `clean_dataset` lines 227-229);
* `enhanceOk`: whether `enhance_image` would succeed on this file. -/

structure SrcImage where
  name : List Char
  hash : Nat
  label : Option (List (List Token))
  decoded : Option ℚ
  brightnessRaises : Bool
  enhanceOk : Bool
deriving DecidableEq, Inhabited

/-- `calculate_brightness` (lines 29-38): when `cv2.imread` fails it
returns `0.0`, otherwise the grayscale mean. -/
def calculate_brightness (img : SrcImage) : ℚ :=
  match img.decoded with
  | none => 0
  | some m => m

/-- Parameters of `clean_dataset` relevant to classification
(brightness bounds and the enhancement switch). -/
structure CleanCfg where
  min_brightness : ℚ
  max_brightness : ℚ
  apply_enhancement : Bool

/-- Default bounds used by `main` (lines 316-319). -/
def defaultCfg : CleanCfg :=
  { min_brightness := 30, max_brightness := 220, apply_enhancement := false }

/-- The discrete outcome of the per-image decision procedure. -/
inductive Outcome where
  | noLabel
  | invalidBbox
  | duplicate
  | tooDark
  | tooBright
  | kept
deriving DecidableEq

/-- The statistics dictionary of `clean_dataset` (lines 178-187). -/
structure Stats where
  total_images : Nat
  duplicates_removed : Nat
  no_label_removed : Nat
  invalid_bbox_removed : Nat
  too_dark_removed : Nat
  too_bright_removed : Nat
  kept : Nat
  enhanced : Nat
deriving DecidableEq

def initStats (n : Nat) : Stats :=
  { total_images := n, duplicates_removed := 0, no_label_removed := 0,
    invalid_bbox_removed := 0, too_dark_removed := 0,
    too_bright_removed := 0, kept := 0, enhanced := 0 }

/-- One loop iteration of `clean_dataset` (lines 193-229) up to the
acceptance step: the outcome of the image and the updated
`seen_hashes`.  The checks run in the fixed source order: missing
label, invalid boxes, duplicate hash, brightness.  The hash of a
non-duplicate image is recorded before the brightness check (line 214);
an exception in the brightness check is caught and the image passes
(lines 227-229). -/
def processImage (cfg : CleanCfg) (seen : List Nat) (img : SrcImage) :
    Outcome × List Nat :=
  if img.label.isNone then (.noLabel, seen)
  else if ¬ validate_bounding_boxes img.label then (.invalidBbox, seen)
  else if img.hash ∈ seen then (.duplicate, seen)
  else
    let seen' := img.hash :: seen
    if img.brightnessRaises then (.kept, seen')
    else
      let brightness := calculate_brightness img
      if brightness < cfg.min_brightness then (.tooDark, seen')
      else if brightness > cfg.max_brightness then (.tooBright, seen')
      else (.kept, seen')

/-- The statistics update for one classified image (lines 198, 204,
211, 220, 224, 238, 247): each outcome increments its own counter, and
a kept image additionally increments `enhanced` when enhancement is on
and succeeds. -/
def bumpStats (cfg : CleanCfg) (img : SrcImage) (o : Outcome) (s : Stats) : Stats :=
  match o with
  | .noLabel => { s with no_label_removed := s.no_label_removed + 1 }
  | .invalidBbox => { s with invalid_bbox_removed := s.invalid_bbox_removed + 1 }
  | .duplicate => { s with duplicates_removed := s.duplicates_removed + 1 }
  | .tooDark => { s with too_dark_removed := s.too_dark_removed + 1 }
  | .tooBright => { s with too_bright_removed := s.too_bright_removed + 1 }
  | .kept =>
    let s1 :=
      if cfg.apply_enhancement && img.enhanceOk then
        { s with enhanced := s.enhanced + 1 }
      else s
    { s1 with kept := s1.kept + 1 }

/-- A file written into the output directory.  `imgCopy` is a
byte-identical `shutil.copy2` of the source image (so it carries the
source hash), `imgEnhanced` is the output of a successful
`enhance_image`, `labelCopy` is the byte-identical copy of the label
file. -/
inductive OutFile where
  | imgCopy (name : List Char) (hash : Nat)
  | imgEnhanced (name : List Char)
  | labelCopy (name : List Char) (content : List (List Token))
deriving DecidableEq

/-- The filename an output file is written under. -/
def outFileName : OutFile → List Char
  | .imgCopy n _ => n
  | .imgEnhanced n => n
  | .labelCopy n _ => n

/-- The acceptance step of `clean_dataset` (lines 231-246): enhance or
copy the image, then copy the label file. -/
def acceptWrites (cfg : CleanCfg) (img : SrcImage) : List OutFile :=
  (if cfg.apply_enhancement then
    if img.enhanceOk then [OutFile.imgEnhanced img.name]
    else [OutFile.imgCopy img.name img.hash]
  else [OutFile.imgCopy img.name img.hash])
  ++ [OutFile.labelCopy img.name (img.label.getD [])]

/-- Output files produced for an image with the given outcome: only a
kept image writes anything. -/
def writesFor (cfg : CleanCfg) (img : SrcImage) (o : Outcome) : List OutFile :=
  if o = .kept then acceptWrites cfg img else []

/-- Observable result of a cleaning run: final statistics, per-image
outcomes in processing order, files written to the output directory,
and the final hash set. -/
structure RunResult where
  stats : Stats
  outcomes : List Outcome
  outFiles : List OutFile
  seen : List Nat
deriving DecidableEq

/-- The image-processing loop of `clean_dataset` (lines 193-251). -/
def runClean (cfg : CleanCfg) (seen : List Nat) (s : Stats) :
    List SrcImage → RunResult
  | [] => { stats := s, outcomes := [], outFiles := [], seen := seen }
  | img :: rest =>
    let p := processImage cfg seen img
    let r := runClean cfg p.2 (bumpStats cfg img p.1 s) rest
    { stats := r.stats, outcomes := p.1 :: r.outcomes,
      outFiles := writesFor cfg img p.1 ++ r.outFiles, seen := r.seen }

/-- Discovery (lines 172-174): files of the source directory whose
lower-cased suffix is a known image extension, in directory order. -/
def discovered (listing : List SrcImage) : List SrcImage :=
  listing.filter (fun f => extOk f.name)

/-- `clean_dataset` (lines 139-252) over a source directory listing. -/
def clean_dataset (cfg : CleanCfg) (listing : List SrcImage) : RunResult :=
  let image_files := discovered listing
  runClean cfg [] (initStats image_files.length) image_files

/-! ### The splitter (`split_laptop_dataset.py`)

A source-directory entry for the splitter is a filename together with
whether a same-stem `.txt` label exists beside it.  The seeded
`random.shuffle` is abstracted by a `shuffle` function parameter (the
claims constrain it to be a permutation where that matters).  Python
`int()` truncates toward zero, which on the non-negative products
below coincides with the floor. -/

structure SrcFile where
  name : List Char
  hasLabel : Bool
deriving DecidableEq

inductive SplitError where
  | ratioRange
  | ratioSum
  | noImages
  | noPairs
deriving DecidableEq

/-- Lexicographic comparison of filenames by code point, as Python
`sorted` compares the paths of a common directory. -/
def lexLe : List Char → List Char → Bool
  | [], _ => true
  | _ :: _, [] => false
  | x :: xs, y :: ys => if x < y then true else if y < x then false else lexLe xs ys

/-- Insert into a sorted list, keeping earlier elements first on
ties (a stable sort, like Python `sorted`). -/
def insertLe (a : SrcFile) : List SrcFile → List SrcFile
  | [] => [a]
  | b :: bs => if lexLe a.name b.name then a :: b :: bs else b :: insertLe a bs

/-- Stable sort of the discovered paths, modelling Python `sorted`. -/
def sortPaths : List SrcFile → List SrcFile
  | [] => []
  | a :: as => insertLe a (sortPaths as)

/-- `image_paths` (`split_laptop_dataset.py` lines 41-43):
`sorted(glob("*.jpg") + glob("*.jpeg"))`. -/
def imagePaths (files : List SrcFile) : List SrcFile :=
  sortPaths (files.filter (fun f => globJpg f.name) ++
    files.filter (fun f => globJpeg f.name))

/-- `valid_images` (lines 48-52): images with an existing same-stem
label. -/
def validImages (files : List SrcFile) : List SrcFile :=
  (imagePaths files).filter (fun f => f.hasLabel)

/-- `split_dataset` (lines 7-84): ratio validation (lines 35-36), image
discovery and emptiness checks (lines 41-55), shuffle (lines 57-58),
and the three slices (lines 60-67). -/
def split_dataset (files : List SrcFile)
    (shuffle : List SrcFile → List SrcFile) (train_ratio val_ratio : ℚ) :
    Except SplitError (List SrcFile × List SrcFile × List SrcFile) :=
  if ¬ (0 < train_ratio ∧ train_ratio < 1 ∧ 0 < val_ratio ∧ val_ratio < 1) then
    .error .ratioRange
  else if ¬ (train_ratio + val_ratio < 1) then .error .ratioSum
  else if (imagePaths files).isEmpty then .error .noImages
  else if (validImages files).isEmpty then .error .noPairs
  else
    let shuffled := shuffle (validImages files)
    let n_total := shuffled.length
    let n_train := (⌊(n_total : ℚ) * train_ratio⌋).toNat
    let n_val := (⌊(n_total : ℚ) * val_ratio⌋).toNat
    .ok (shuffled.take n_train, (shuffled.drop n_train).take n_val,
      shuffled.drop (n_train + n_val))

/-- A file-system side effect of the splitter. -/
inductive FsAction where
  | mkdirImages (split : List Char)
  | mkdirLabels (split : List Char)
  | copyImage (split : List Char) (name : List Char)
  | copyLabel (split : List Char) (name : List Char)
deriving DecidableEq

/-- `prepare_split` (lines 72-80): create the two directories of the
split, then copy each pair's image and label into them. -/
def prepare_split (split : List Char) (pairs : List SrcFile) : List FsAction :=
  [FsAction.mkdirImages split, FsAction.mkdirLabels split] ++
    pairs.flatMap (fun p => [FsAction.copyImage split p.name,
      FsAction.copyLabel split p.name])

/-- The file-system actions of a whole `split_dataset` call: the
asserts and the two emptiness checks come before any directory is
created or file copied, so a failed validation performs no action. -/
def split_effects (files : List SrcFile)
    (shuffle : List SrcFile → List SrcFile) (train_ratio val_ratio : ℚ) :
    List FsAction :=
  match split_dataset files shuffle train_ratio val_ratio with
  | .error _ => []
  | .ok (t, v, s) =>
    prepare_split "train".toList t ++ prepare_split "val".toList v ++
      prepare_split "test".toList s

/-! ### Concrete example inputs used by witnesses and counterexamples -/

/-- A one-line label file describing the centred half-size box:
`0 0.5 0.5 0.5 0.5`. -/
def lbl0 : List (List Token) :=
  [[Token.tint 0, Token.tfloat (1/2), Token.tfloat (1/2),
    Token.tfloat (1/2), Token.tfloat (1/2)]]

/-- A normal image: valid label, decodes with brightness 100. -/
def imgBright : SrcImage :=
  { name := "a.jpg".toList, hash := 1, label := some lbl0,
    decoded := some 100, brightnessRaises := false, enhanceOk := true }

/-- A byte-identical copy of `imgBright` under another name. -/
def imgBright2 : SrcImage :=
  { imgBright with name := "b.jpg".toList }

/-- A dark image (brightness 10) with a valid label. -/
def imgDark1 : SrcImage :=
  { name := "a.jpg".toList, hash := 2, label := some lbl0,
    decoded := some 10, brightnessRaises := false, enhanceOk := true }

/-- A byte-identical copy of `imgDark1` under another name. -/
def imgDark2 : SrcImage :=
  { imgDark1 with name := "b.jpg".toList }

/-- An image with no sibling label file. -/
def imgNoLabel : SrcImage :=
  { name := "c.jpg".toList, hash := 3, label := none,
    decoded := some 100, brightnessRaises := false, enhanceOk := true }

/-- An image whose label file exists but is empty. -/
def imgBadLabel : SrcImage :=
  { name := "d.jpg".toList, hash := 4, label := some [],
    decoded := some 100, brightnessRaises := false, enhanceOk := true }

/-- An image with a valid label whose decoding fails
(`cv2.imread` returns `None`). -/
def imgUndecodable : SrcImage :=
  { name := "e.jpg".toList, hash := 5, label := some lbl0,
    decoded := none, brightnessRaises := false, enhanceOk := true }

/-- A normal image on which `enhance_image` fails. -/
def imgEnhanceFail : SrcImage :=
  { name := "f.jpg".toList, hash := 6, label := some lbl0,
    decoded := some 100, brightnessRaises := false, enhanceOk := false }

/-- A normal image with a `.png` name. -/
def imgPng : SrcImage :=
  { name := "g.png".toList, hash := 7, label := some lbl0,
    decoded := some 100, brightnessRaises := false, enhanceOk := true }

/-- The default configuration with enhancement switched on. -/
def cfgEnhance : CleanCfg :=
  { min_brightness := 30, max_brightness := 220, apply_enhancement := true }

/-- Ten labelled jpg files for the splitter witness. -/
def tenFiles : List SrcFile :=
  [⟨"0.jpg".toList, true⟩, ⟨"1.jpg".toList, true⟩, ⟨"2.jpg".toList, true⟩,
   ⟨"3.jpg".toList, true⟩, ⟨"4.jpg".toList, true⟩, ⟨"5.jpg".toList, true⟩,
   ⟨"6.jpg".toList, true⟩, ⟨"7.jpg".toList, true⟩, ⟨"8.jpg".toList, true⟩,
   ⟨"9.jpg".toList, true⟩]

/-- A splitter listing holding one jpg pair and one png pair. -/
def filesWithPng : List SrcFile :=
  [⟨"a.jpg".toList, true⟩, ⟨"g.png".toList, true⟩]

/-- Sum of the six per-outcome counters of a statistics record. -/
def outcomeSum (s : Stats) : Nat :=
  s.no_label_removed + s.invalid_bbox_removed + s.duplicates_removed +
    s.too_dark_removed + s.too_bright_removed + s.kept

/-- The hash set as threaded through the per-image loop. -/
def seenFold (cfg : CleanCfg) (seen : List Nat) : List SrcImage → List Nat
  | [] => seen
  | img :: rest => seenFold cfg (processImage cfg seen img).2 rest

/-- The brightness check of `clean_dataset` passes: either the check
raises (and is caught, line 227-229), or the computed brightness is
inside the configured bounds. -/
def brightnessPasses (cfg : CleanCfg) (img : SrcImage) : Bool :=
  img.brightnessRaises ||
    (!decide (calculate_brightness img < cfg.min_brightness) &&
     !decide (calculate_brightness img > cfg.max_brightness))

/-! ## Theorems -/

theorem checkLine_iff (parts : List Token) :
    checkLine parts = true ↔ lineOkSpec parts := by
  match parts with
  | [] => simp [checkLine, lineOkSpec]
  | [a] => simp [checkLine, lineOkSpec]
  | [a, b] => simp [checkLine, lineOkSpec]
  | [a, b, c] => simp [checkLine, lineOkSpec]
  | [a, b, c, d] => simp [checkLine, lineOkSpec]
  | a :: b :: c :: d :: e :: f :: rest => simp [checkLine, lineOkSpec]
  | [p0, p1, p2, p3, p4] =>
    cases h0 : parseIntTok p0 <;> cases h1 : parseFloatTok p1 <;>
      cases h2 : parseFloatTok p2 <;> cases h3 : parseFloatTok p3 <;>
      cases h4 : parseFloatTok p4 <;>
      simp only [checkLine, h0, h1, h2, h3, h4]
    all_goals try {
      simp only [Bool.false_eq_true, false_iff, lineOkSpec]
      rintro ⟨t0, t1, t2, t3, t4, heq, ⟨c, hc⟩, x, y, w, hgt, hx, hy, hw, hh, -, -, -⟩
      simp only [List.cons.injEq, and_true] at heq
      obtain ⟨rfl, rfl, rfl, rfl, rfl⟩ := heq
      simp_all }
    next c x y w hgt =>
      constructor
      · intro hb
        split_ifs at hb with hA hB hC
        exact ⟨p0, p1, p2, p3, p4, rfl, ⟨c, h0⟩, x, y, w, hgt,
          h1, h2, h3, h4, hA, hB, hC⟩
      · rintro ⟨t0, t1, t2, t3, t4, heq, -, x', y', w', hgt', hx, hy, hw, hh, hP1, hP2, hP3⟩
        simp only [List.cons.injEq, and_true] at heq
        obtain ⟨rfl, rfl, rfl, rfl, rfl⟩ := heq
        rw [h1] at hx
        rw [h2] at hy
        rw [h3] at hw
        rw [h4] at hh
        obtain rfl := Option.some.inj hx
        obtain rfl := Option.some.inj hy
        obtain rfl := Option.some.inj hw
        obtain rfl := Option.some.inj hh
        rw [if_neg (not_not_intro hP1), if_neg (not_not_intro hP2),
          if_neg (not_not_intro hP3)]

/-- C1: for every existing label file, `validate_bounding_boxes` returns
`true` if and only if the file has at least one line and every line
splits into exactly 5 tokens whose first field parses as an integer and
whose remaining four parse as numbers with the centres in `[0,1]`, the
sizes in `(0,1]`, and the derived box inside `[0,1]` on both axes with
min strictly less than max; an empty label file is invalid. -/
theorem C1_validate_bounding_boxes_iff_spec (lines : List (List Token)) :
    validate_bounding_boxes (some lines) = true ↔ labelOkSpec lines := by
  simp only [validate_bounding_boxes, labelOkSpec]
  split_ifs with h
  · simp only [Bool.false_eq_true, false_iff, not_and]
    intro hne
    exact absurd (List.isEmpty_iff.mp h) hne
  · rw [List.all_eq_true]
    have hne : lines ≠ [] := by
      intro hcon
      exact h (by simp [hcon])
    simp only [hne, ne_eq, not_false_eq_true, true_and]
    constructor
    · intro hall line hmem
      exact (checkLine_iff line).mp (hall line hmem)
    · intro hall line hmem
      exact (checkLine_iff line).mpr (hall line hmem)

/-! ### Statistics invariants of the cleaning run -/

theorem bumpStats_total_images (cfg : CleanCfg) (img : SrcImage) (o : Outcome)
    (s : Stats) : (bumpStats cfg img o s).total_images = s.total_images := by
  cases o <;> by_cases hc : (cfg.apply_enhancement && img.enhanceOk) = true <;>
    simp [bumpStats, hc]

theorem bumpStats_outcomeSum (cfg : CleanCfg) (img : SrcImage) (o : Outcome)
    (s : Stats) : outcomeSum (bumpStats cfg img o s) = outcomeSum s + 1 := by
  cases o <;> by_cases hc : (cfg.apply_enhancement && img.enhanceOk) = true <;>
    simp [bumpStats, outcomeSum, hc] <;> omega

theorem bumpStats_enhanced_le_kept (cfg : CleanCfg) (img : SrcImage)
    (o : Outcome) (s : Stats) (h : s.enhanced ≤ s.kept) :
    (bumpStats cfg img o s).enhanced ≤ (bumpStats cfg img o s).kept := by
  cases o <;> by_cases hc : (cfg.apply_enhancement && img.enhanceOk) = true <;>
    simp [bumpStats, hc] <;> omega

theorem bumpStats_enhanced_off (cfg : CleanCfg) (img : SrcImage) (o : Outcome)
    (s : Stats) (h : cfg.apply_enhancement = false) :
    (bumpStats cfg img o s).enhanced = s.enhanced := by
  cases o <;> simp [bumpStats, h]

theorem runClean_total_images (cfg : CleanCfg) (files : List SrcImage) :
    ∀ (seen : List Nat) (s : Stats),
      (runClean cfg seen s files).stats.total_images = s.total_images := by
  induction files with
  | nil => intro seen s; rfl
  | cons img rest ih =>
    intro seen s
    simp only [runClean]
    rw [ih, bumpStats_total_images]

theorem runClean_outcomeSum (cfg : CleanCfg) (files : List SrcImage) :
    ∀ (seen : List Nat) (s : Stats),
      outcomeSum (runClean cfg seen s files).stats = outcomeSum s + files.length := by
  induction files with
  | nil => intro seen s; rfl
  | cons img rest ih =>
    intro seen s
    simp only [runClean, List.length_cons]
    rw [ih, bumpStats_outcomeSum]
    omega

theorem runClean_outcomes_length (cfg : CleanCfg) (files : List SrcImage) :
    ∀ (seen : List Nat) (s : Stats),
      (runClean cfg seen s files).outcomes.length = files.length := by
  induction files with
  | nil => intro seen s; rfl
  | cons img rest ih =>
    intro seen s
    simp only [runClean, List.length_cons]
    rw [ih]

/-- C2: at the end of every cleaning run the statistics satisfy
`total_images = no_label + invalid_bbox + duplicate + too_dark +
too_bright + kept`, and each discovered source image contributes
exactly one outcome (the run produces exactly `total_images` outcomes,
each incrementing exactly one of the six counters). -/
theorem C2_stats_partition (cfg : CleanCfg) (listing : List SrcImage) :
    (clean_dataset cfg listing).stats.no_label_removed
      + (clean_dataset cfg listing).stats.invalid_bbox_removed
      + (clean_dataset cfg listing).stats.duplicates_removed
      + (clean_dataset cfg listing).stats.too_dark_removed
      + (clean_dataset cfg listing).stats.too_bright_removed
      + (clean_dataset cfg listing).stats.kept
      = (clean_dataset cfg listing).stats.total_images ∧
    (clean_dataset cfg listing).outcomes.length
      = (clean_dataset cfg listing).stats.total_images := by
  have h1 := runClean_outcomeSum cfg (discovered listing) []
    (initStats (discovered listing).length)
  have h2 := runClean_total_images cfg (discovered listing) []
    (initStats (discovered listing).length)
  have h3 := runClean_outcomes_length cfg (discovered listing) []
    (initStats (discovered listing).length)
  simp only [clean_dataset]
  constructor
  · have := h1
    simp only [outcomeSum, initStats] at this h2 ⊢
    omega
  · simp only [initStats] at h2 h3 ⊢
    omega

/-- C7: in every cleaning run `enhanced ≤ kept`, and when enhancement
is disabled the final `enhanced` count is zero. -/
theorem C7_enhanced_le_kept (cfg : CleanCfg) (listing : List SrcImage) :
    (clean_dataset cfg listing).stats.enhanced
      ≤ (clean_dataset cfg listing).stats.kept ∧
    (cfg.apply_enhancement = false →
      (clean_dataset cfg listing).stats.enhanced = 0) := by
  have key : ∀ (files : List SrcImage) (seen : List Nat) (s : Stats),
      (s.enhanced ≤ s.kept →
        (runClean cfg seen s files).stats.enhanced
          ≤ (runClean cfg seen s files).stats.kept) ∧
      (cfg.apply_enhancement = false →
        (runClean cfg seen s files).stats.enhanced = s.enhanced) := by
    intro files
    induction files with
    | nil => intro seen s; exact ⟨fun h => h, fun _ => rfl⟩
    | cons img rest ih =>
      intro seen s
      constructor
      · intro h
        simp only [runClean]
        exact ((ih _ _).1 (bumpStats_enhanced_le_kept cfg img _ s h))
      · intro h
        simp only [runClean]
        rw [(ih _ _).2 h, bumpStats_enhanced_off cfg img _ s h]
  constructor
  · exact (key (discovered listing) [] (initStats (discovered listing).length)).1
      (by simp [initStats])
  · intro h
    have := (key (discovered listing) [] (initStats (discovered listing).length)).2 h
    simp only [clean_dataset]
    rw [this]
    rfl

/-- C7 witness: a concrete run with enhancement disabled. -/
theorem C7_enhanced_le_kept_witness :
    (clean_dataset defaultCfg [imgBright]).stats.enhanced
      ≤ (clean_dataset defaultCfg [imgBright]).stats.kept ∧
    (clean_dataset defaultCfg [imgBright]).stats.enhanced = 0 :=
  ⟨(C7_enhanced_le_kept defaultCfg [imgBright]).1,
   (C7_enhanced_le_kept defaultCfg [imgBright]).2 rfl⟩

/-! ### Per-image rule order -/

/-- The example label file is valid. -/
theorem validate_lbl0 : validate_bounding_boxes (some lbl0) = true := by
  simp only [validate_bounding_boxes, lbl0, List.isEmpty_cons, List.all_cons,
    List.all_nil, Bool.and_true, checkLine, parseIntTok, parseFloatTok]
  norm_num

/-- C5: the per-image checks run in the fixed order missing-label,
invalid-bbox, duplicate, brightness, and the first matching rule wins:
a missing label yields `noLabel` regardless of all other attributes, an
existing but invalid label yields `invalidBbox` regardless of hash and
brightness, a valid label with an already-seen hash yields `duplicate`
regardless of brightness, and only a valid-label fresh-hash image can
reach the brightness outcomes; the `noLabel` and `invalidBbox` outcomes
increment exactly their own counters. -/
theorem C5_fixed_rule_order (cfg : CleanCfg) (seen : List Nat)
    (img : SrcImage) (s : Stats) :
    (img.label = none → (processImage cfg seen img).1 = .noLabel) ∧
    (img.label ≠ none → validate_bounding_boxes img.label = false →
      (processImage cfg seen img).1 = .invalidBbox) ∧
    (validate_bounding_boxes img.label = true → img.hash ∈ seen →
      (processImage cfg seen img).1 = .duplicate) ∧
    (validate_bounding_boxes img.label = true → img.hash ∉ seen →
      ((processImage cfg seen img).1 = .tooDark ∨
       (processImage cfg seen img).1 = .tooBright ∨
       (processImage cfg seen img).1 = .kept)) ∧
    bumpStats cfg img .noLabel s =
      { s with no_label_removed := s.no_label_removed + 1 } ∧
    bumpStats cfg img .invalidBbox s =
      { s with invalid_bbox_removed := s.invalid_bbox_removed + 1 } := by
  refine ⟨?_, ?_, ?_, ?_, rfl, rfl⟩
  · intro h
    simp [processImage, h]
  · intro h1 h2
    have hn : img.label.isNone = false := by
      cases himg : img.label
      · exact absurd himg h1
      · rfl
    simp [processImage, hn, h2]
  · intro h1 h2
    have hn : img.label.isNone = false := by
      cases himg : img.label
      · rw [himg] at h1
        simp [validate_bounding_boxes] at h1
      · rfl
    simp [processImage, hn, h1, h2]
  · intro h1 h2
    have hn : img.label.isNone = false := by
      cases himg : img.label
      · rw [himg] at h1
        simp [validate_bounding_boxes] at h1
      · rfl
    by_cases hr : img.brightnessRaises
    · simp [processImage, hn, h1, h2, hr]
    · by_cases h3 : calculate_brightness img < cfg.min_brightness
      · simp [processImage, hn, h1, h2, hr, h3]
      · by_cases h4 : calculate_brightness img > cfg.max_brightness
        · simp [processImage, hn, h1, h2, hr, h3, h4]
        · simp [processImage, hn, h1, h2, hr, h3, h4]

/-- C5 witness: each rule observed on a concrete image. -/
theorem C5_fixed_rule_order_witness :
    (processImage defaultCfg [] imgNoLabel).1 = Outcome.noLabel ∧
    (processImage defaultCfg [] imgBadLabel).1 = Outcome.invalidBbox ∧
    (processImage defaultCfg [1] imgBright).1 = Outcome.duplicate ∧
    ((processImage defaultCfg [] imgBright).1 = Outcome.tooDark ∨
     (processImage defaultCfg [] imgBright).1 = Outcome.tooBright ∨
     (processImage defaultCfg [] imgBright).1 = Outcome.kept) :=
  ⟨(C5_fixed_rule_order defaultCfg [] imgNoLabel (initStats 0)).1 rfl,
   (C5_fixed_rule_order defaultCfg [] imgBadLabel (initStats 0)).2.1
     (by simp [imgBadLabel]) (by simp [imgBadLabel, validate_bounding_boxes]),
   (C5_fixed_rule_order defaultCfg [1] imgBright (initStats 0)).2.2.1
     validate_lbl0 (by simp [imgBright]),
   (C5_fixed_rule_order defaultCfg [] imgBright (initStats 0)).2.2.2.1
     validate_lbl0 (by simp)⟩

/-! ### Acceptance and enhancement fallback -/

/-- C6: for an accepted image when enhancement is enabled and the
enhancement step fails, the pipeline writes a byte-identical copy of
the source image, counts the image as kept but not as enhanced, and
continues with the remaining images; in every acceptance path
(enhancement off, enhancement failed, enhancement succeeded) the label
file is copied byte-identical alongside the image. -/
theorem C6_enhancement_fallback (cfg : CleanCfg) (seen : List Nat)
    (s : Stats) (img : SrcImage) (rest : List SrcImage)
    (henh : cfg.apply_enhancement = true) (hfail : img.enhanceOk = false)
    (hv : validate_bounding_boxes img.label = true) (hd : img.hash ∉ seen)
    (hb : brightnessPasses cfg img = true) :
    (processImage cfg seen img).1 = .kept ∧
    acceptWrites cfg img =
      [OutFile.imgCopy img.name img.hash,
       OutFile.labelCopy img.name (img.label.getD [])] ∧
    (bumpStats cfg img .kept s).kept = s.kept + 1 ∧
    (bumpStats cfg img .kept s).enhanced = s.enhanced ∧
    (runClean cfg seen s (img :: rest)).outcomes.length = rest.length + 1 ∧
    OutFile.labelCopy img.name (img.label.getD []) ∈ acceptWrites cfg img ∧
    OutFile.labelCopy img.name (img.label.getD []) ∈
      acceptWrites { cfg with apply_enhancement := false } img ∧
    OutFile.labelCopy img.name (img.label.getD []) ∈
      acceptWrites cfg { img with enhanceOk := true } := by
  have hn : img.label.isNone = false := by
    cases himg : img.label
    · rw [himg] at hv
      simp [validate_bounding_boxes] at hv
    · rfl
  refine ⟨?_, ?_, ?_, ?_, ?_, ?_, ?_, ?_⟩
  · by_cases hr : img.brightnessRaises
    · simp [processImage, hn, hv, hd, hr]
    · simp only [brightnessPasses, hr, Bool.false_or, Bool.and_eq_true,
        Bool.not_eq_true', decide_eq_false_iff_not] at hb
      simp [processImage, hn, hv, hd, hr, hb.1, hb.2]
  · simp [acceptWrites, henh, hfail]
  · simp [bumpStats, henh, hfail]
  · simp [bumpStats, henh, hfail]
  · simp [runClean, runClean_outcomes_length]
  · simp [acceptWrites]
  · simp [acceptWrites]
  · simp [acceptWrites]

/-- C6 witness: a concrete accepted image whose enhancement fails. -/
theorem C6_enhancement_fallback_witness :
    (processImage cfgEnhance [] imgEnhanceFail).1 = Outcome.kept ∧
    acceptWrites cfgEnhance imgEnhanceFail =
      [OutFile.imgCopy imgEnhanceFail.name imgEnhanceFail.hash,
       OutFile.labelCopy imgEnhanceFail.name (imgEnhanceFail.label.getD [])] ∧
    (bumpStats cfgEnhance imgEnhanceFail .kept (initStats 1)).kept
      = (initStats 1).kept + 1 ∧
    (bumpStats cfgEnhance imgEnhanceFail .kept (initStats 1)).enhanced
      = (initStats 1).enhanced ∧
    (runClean cfgEnhance [] (initStats 1) [imgEnhanceFail]).outcomes.length
      = 0 + 1 ∧
    OutFile.labelCopy imgEnhanceFail.name (imgEnhanceFail.label.getD [])
      ∈ acceptWrites cfgEnhance imgEnhanceFail ∧
    OutFile.labelCopy imgEnhanceFail.name (imgEnhanceFail.label.getD [])
      ∈ acceptWrites { cfgEnhance with apply_enhancement := false } imgEnhanceFail ∧
    OutFile.labelCopy imgEnhanceFail.name (imgEnhanceFail.label.getD [])
      ∈ acceptWrites cfgEnhance { imgEnhanceFail with enhanceOk := true } :=
  C6_enhancement_fallback cfgEnhance [] (initStats 1) imgEnhanceFail [] rfl rfl
    validate_lbl0 (by simp)
    (by norm_num [brightnessPasses, calculate_brightness, imgEnhanceFail, cfgEnhance])

/-! ### The duplicate rule -/

theorem processImage_snd (cfg : CleanCfg) (seen : List Nat) (img : SrcImage) :
    (processImage cfg seen img).2 =
      if validate_bounding_boxes img.label = true ∧ img.hash ∉ seen
      then img.hash :: seen else seen := by
  by_cases hv : validate_bounding_boxes img.label = true
  · have hn : img.label.isNone = false := by
      cases himg : img.label
      · rw [himg] at hv
        simp [validate_bounding_boxes] at hv
      · rfl
    by_cases hd : img.hash ∈ seen
    · simp [processImage, hn, hv, hd]
    · by_cases hr : img.brightnessRaises
      · simp [processImage, hn, hv, hd, hr]
      · by_cases h3 : calculate_brightness img < cfg.min_brightness
        · simp [processImage, hn, hv, hd, hr, h3]
        · by_cases h4 : calculate_brightness img > cfg.max_brightness
          · simp [processImage, hn, hv, hd, hr, h3, h4]
          · simp [processImage, hn, hv, hd, hr, h3, h4]
  · by_cases hn : img.label.isNone
    · simp [processImage, hn, hv]
    · simp [processImage, hn, hv]

theorem seenFold_mem (cfg : CleanCfg) (files : List SrcImage) :
    ∀ (seen : List Nat) (x : Nat),
      x ∈ seenFold cfg seen files ↔
        x ∈ seen ∨ ∃ f ∈ files,
          validate_bounding_boxes f.label = true ∧ x = f.hash := by
  induction files with
  | nil => intro seen x; simp [seenFold]
  | cons img rest ih =>
    intro seen x
    have hsplit : (∃ f ∈ img :: rest,
        validate_bounding_boxes f.label = true ∧ x = f.hash) ↔
        ((validate_bounding_boxes img.label = true ∧ x = img.hash) ∨
         ∃ f ∈ rest, validate_bounding_boxes f.label = true ∧ x = f.hash) := by
      simp
    rw [seenFold, ih, processImage_snd, hsplit]
    split_ifs with hc
    · simp only [List.mem_cons]
      constructor
      · rintro ((rfl | h) | h)
        · exact Or.inr (Or.inl ⟨hc.1, rfl⟩)
        · exact Or.inl h
        · exact Or.inr (Or.inr h)
      · rintro (h | ⟨hv, rfl⟩ | h)
        · exact Or.inl (Or.inr h)
        · exact Or.inl (Or.inl rfl)
        · exact Or.inr h
    · constructor
      · rintro (h | h)
        · exact Or.inl h
        · exact Or.inr (Or.inr h)
      · rintro (h | ⟨hv, rfl⟩ | h)
        · exact Or.inl h
        · by_cases hmem : img.hash ∈ seen
          · exact Or.inl hmem
          · exact absurd ⟨hv, hmem⟩ hc
        · exact Or.inr h

theorem processImage_fst_duplicate (cfg : CleanCfg) (seen : List Nat)
    (img : SrcImage) (hv : validate_bounding_boxes img.label = true)
    (hd : img.hash ∈ seen) : (processImage cfg seen img).1 = .duplicate := by
  have hn : img.label.isNone = false := by
    cases himg : img.label
    · rw [himg] at hv
      simp [validate_bounding_boxes] at hv
    · rfl
  simp [processImage, hn, hv, hd]

theorem processImage_fst_not_duplicate (cfg : CleanCfg) (seen : List Nat)
    (img : SrcImage) (hd : img.hash ∉ seen) :
    (processImage cfg seen img).1 ≠ .duplicate := by
  by_cases hn : img.label.isNone
  · simp [processImage, hn]
  · by_cases hv : validate_bounding_boxes img.label = true
    · by_cases hr : img.brightnessRaises
      · simp [processImage, hn, hv, hd, hr]
      · by_cases h3 : calculate_brightness img < cfg.min_brightness
        · simp [processImage, hn, hv, hd, hr, h3]
        · by_cases h4 : calculate_brightness img > cfg.max_brightness
          · simp [processImage, hn, hv, hd, hr, h3, h4]
          · simp [processImage, hn, hv, hd, hr, h3, h4]
    · simp [processImage, hn, hv]

theorem processImage_fst_kept_iff (cfg : CleanCfg) (seen : List Nat)
    (img : SrcImage) (hv : validate_bounding_boxes img.label = true)
    (hd : img.hash ∉ seen) :
    ((processImage cfg seen img).1 = .kept ↔ brightnessPasses cfg img = true) := by
  have hn : img.label.isNone = false := by
    cases himg : img.label
    · rw [himg] at hv
      simp [validate_bounding_boxes] at hv
    · rfl
  by_cases hr : img.brightnessRaises
  · simp [processImage, hn, hv, hd, hr, brightnessPasses]
  · by_cases h3 : calculate_brightness img < cfg.min_brightness
    · simp [processImage, hn, hv, hd, hr, h3, brightnessPasses]
    · by_cases h4 : calculate_brightness img > cfg.max_brightness
      · simp [processImage, hn, hv, hd, hr, h3, h4, brightnessPasses]
      · simp [processImage, hn, hv, hd, hr, h3, h4, brightnessPasses]

theorem runClean_outcomes_getD (cfg : CleanCfg) (files : List SrcImage) :
    ∀ (i : Nat) (seen : List Nat) (s : Stats), i < files.length →
      (runClean cfg seen s files).outcomes.getD i .noLabel =
        (processImage cfg (seenFold cfg seen (files.take i))
          (files.getD i default)).1 := by
  induction files with
  | nil =>
    intro i seen s h
    simp at h
  | cons img rest ih =>
    intro i seen s h
    match i with
    | 0 => simp [runClean, seenFold]
    | Nat.succ j =>
      simp only [runClean, List.getD_cons_succ, List.take_succ_cons, seenFold]
      exact ih j _ _ (by simpa using h)

/-- C3 (amended): among byte-identical valid-label images processed in
the same run, the first in discovery order is exempt from the duplicate
rule and is kept exactly when it also passes the brightness check,
while every later byte-identical valid-label image is counted as
duplicate; the first occurrence of a hash is never counted as
duplicate. -/
theorem C3_first_occurrence_amended (cfg : CleanCfg) (listing : List SrcImage)
    (i j : Nat) (hj : j < (discovered listing).length) (hij : i < j)
    (hh : ((discovered listing).getD i default).hash
        = ((discovered listing).getD j default).hash)
    (hvi : validate_bounding_boxes
      ((discovered listing).getD i default).label = true)
    (hvj : validate_bounding_boxes
      ((discovered listing).getD j default).label = true)
    (hfirst : ∀ k, k < i →
      ((discovered listing).getD k default).hash
        ≠ ((discovered listing).getD i default).hash) :
    (clean_dataset cfg listing).outcomes.getD j .noLabel = .duplicate ∧
    (clean_dataset cfg listing).outcomes.getD i .noLabel ≠ .duplicate ∧
    ((clean_dataset cfg listing).outcomes.getD i .noLabel = .kept ↔
      brightnessPasses cfg ((discovered listing).getD i default) = true) := by
  have hi : i < (discovered listing).length := lt_trans hij hj
  have hrun : ∀ k, k < (discovered listing).length →
      (clean_dataset cfg listing).outcomes.getD k .noLabel =
        (processImage cfg (seenFold cfg [] ((discovered listing).take k))
          ((discovered listing).getD k default)).1 := by
    intro k hk
    exact runClean_outcomes_getD cfg (discovered listing) k []
      (initStats (discovered listing).length) hk
  -- the hash of image i is in the seen set at step j
  have hmemJ : ((discovered listing).getD j default).hash
      ∈ seenFold cfg [] ((discovered listing).take j) := by
    rw [seenFold_mem]
    right
    refine ⟨(discovered listing).getD i default, ?_, hvi, hh.symm⟩
    have hlen : i < ((discovered listing).take j).length := by
      rw [List.length_take]
      omega
    rw [List.getD_eq_getElem _ _ hi]
    have hget := List.getElem_take (L := discovered listing) (j := j)
      (i := i) (h := hlen)
    rw [← hget]
    exact List.getElem_mem hlen
  -- the hash of image i is fresh at step i
  have hmemI : ((discovered listing).getD i default).hash
      ∉ seenFold cfg [] ((discovered listing).take i) := by
    rw [seenFold_mem]
    rintro (habs | ⟨f, hf, hfv, hfh⟩)
    · simp at habs
    · obtain ⟨k, hk, hkf⟩ := List.getElem_of_mem hf
      have hk' : k < i := by
        have := hk
        rw [List.length_take] at this
        omega
      have hkval : (discovered listing).getD k default = f := by
        rw [List.getD_eq_getElem _ _ (lt_trans hk' hi), ← hkf]
        exact (List.getElem_take (L := discovered listing) (j := i)
          (i := k) (h := hk)).symm
      exact hfirst k hk' (by rw [hkval, ← hfh])
  refine ⟨?_, ?_, ?_⟩
  · rw [hrun j hj]
    exact processImage_fst_duplicate cfg _ _ hvj hmemJ
  · rw [hrun i hi]
    exact processImage_fst_not_duplicate cfg _ _ hmemI
  · rw [hrun i hi]
    exact processImage_fst_kept_iff cfg _ _ hvi hmemI

/-- C3 counterexample: two byte-identical dark images, both with valid
labels, processed in one run with the default configuration.  The
claim says exactly one of them — the first — is kept; in fact the first
is rejected as too dark (its hash is recorded before the brightness
check), no image of the pair is kept, and the second is still counted
as a duplicate. -/
theorem C3_counterexample :
    imgDark1.hash = imgDark2.hash ∧
    validate_bounding_boxes imgDark1.label = true ∧
    validate_bounding_boxes imgDark2.label = true ∧
    (clean_dataset defaultCfg [imgDark1, imgDark2]).outcomes
      = [Outcome.tooDark, Outcome.duplicate] ∧
    (clean_dataset defaultCfg [imgDark1, imgDark2]).stats.kept = 0 := by
  have hdisc : discovered [imgDark1, imgDark2] = [imgDark1, imgDark2] := by
    simp +decide [discovered]
  have h1 : processImage defaultCfg [] imgDark1 = (.tooDark, [2]) := by
    simp only [processImage, imgDark1, validate_lbl0, calculate_brightness,
      defaultCfg, Option.isNone_some, Bool.false_eq_true, if_false,
      List.not_mem_nil]
    norm_num
  have h2 : processImage defaultCfg [2] imgDark2 = (.duplicate, [2]) := by
    simp only [processImage, imgDark2, imgDark1, validate_lbl0,
      calculate_brightness, defaultCfg, Option.isNone_some,
      Bool.false_eq_true, if_false]
    simp
  refine ⟨rfl, validate_lbl0, validate_lbl0, ?_, ?_⟩
  · simp [clean_dataset, hdisc, runClean, h1, h2]
  · simp [clean_dataset, hdisc, runClean, h1, h2, bumpStats, initStats]

/-- C3 witness for the amended claim: two byte-identical bright images
with valid labels; the first is not a duplicate and is kept (it passes
the brightness check), the second is counted as duplicate. -/
theorem C3_first_occurrence_amended_witness :
    (clean_dataset defaultCfg [imgBright, imgBright2]).outcomes.getD 1
      Outcome.noLabel = Outcome.duplicate ∧
    (clean_dataset defaultCfg [imgBright, imgBright2]).outcomes.getD 0
      Outcome.noLabel ≠ Outcome.duplicate ∧
    ((clean_dataset defaultCfg [imgBright, imgBright2]).outcomes.getD 0
        Outcome.noLabel = Outcome.kept ↔
      brightnessPasses defaultCfg
        ((discovered [imgBright, imgBright2]).getD 0 default) = true) := by
  have hdisc : discovered [imgBright, imgBright2] = [imgBright, imgBright2] := by
    simp +decide [discovered]
  have hd0 : (discovered [imgBright, imgBright2]).getD 0 default = imgBright := by
    rw [hdisc]
    rfl
  have hd1 : (discovered [imgBright, imgBright2]).getD 1 default = imgBright2 := by
    rw [hdisc]
    rfl
  exact C3_first_occurrence_amended defaultCfg [imgBright, imgBright2] 0 1
    (by rw [hdisc]; simp) (by omega)
    (by rw [hd0, hd1]; rfl)
    (by rw [hd0]; exact validate_lbl0)
    (by rw [hd1]; exact validate_lbl0)
    (fun k hk => absurd hk (Nat.not_lt_zero k))

/-- C4: the claim says a decode failure during the brightness check is
fail-open.  In the code, `cv2.imread` returning `None` makes
`calculate_brightness` return `0.0` without raising (lines 34-36), so
under the default `min_brightness = 30` the image is counted as
`too_dark` and not copied; the fail-open `except` handler of
`clean_dataset` (lines 227-229, "don't remove if we can't check") is
never reached on this path.  A concrete run with one undecodable image
with a valid label shows the divergence. -/
theorem C4_decode_failure_counted_too_dark :
    imgUndecodable.decoded = none ∧
    validate_bounding_boxes imgUndecodable.label = true ∧
    calculate_brightness imgUndecodable = 0 ∧
    (clean_dataset defaultCfg [imgUndecodable]).outcomes = [Outcome.tooDark] ∧
    (clean_dataset defaultCfg [imgUndecodable]).stats.too_dark_removed = 1 ∧
    (clean_dataset defaultCfg [imgUndecodable]).stats.kept = 0 := by
  have hdisc : discovered [imgUndecodable] = [imgUndecodable] := by
    simp +decide [discovered]
  have h1 : processImage defaultCfg [] imgUndecodable = (.tooDark, [5]) := by
    simp only [processImage, imgUndecodable, validate_lbl0,
      calculate_brightness, defaultCfg, Option.isNone_some,
      Bool.false_eq_true, if_false, List.not_mem_nil]
    norm_num
  refine ⟨rfl, validate_lbl0, rfl, ?_, ?_, ?_⟩
  · simp [clean_dataset, hdisc, runClean, h1]
  · simp [clean_dataset, hdisc, runClean, h1, bumpStats, initStats]
  · simp [clean_dataset, hdisc, runClean, h1, bumpStats, initStats]

/-! ### The splitter: slices and ratio validation -/

theorem insertLe_perm (a : SrcFile) (l : List SrcFile) :
    (insertLe a l).Perm (a :: l) := by
  induction l with
  | nil => exact List.Perm.refl _
  | cons b bs ih =>
    rw [insertLe]
    split_ifs
    · exact List.Perm.refl _
    · exact (ih.cons b).trans (List.Perm.swap a b bs)

theorem sortPaths_perm (l : List SrcFile) : (sortPaths l).Perm l := by
  induction l with
  | nil => exact List.Perm.refl _
  | cons a as ih => exact (insertLe_perm a (sortPaths as)).trans (ih.cons a)

theorem mem_sortPaths (x : SrcFile) (l : List SrcFile) :
    x ∈ sortPaths l ↔ x ∈ l :=
  (sortPaths_perm l).mem_iff

/-- C8: for every source listing with at least one valid pair and every
ratio pair satisfying the constraints, the splitter succeeds and
returns the three contiguous order-preserving slices of the shuffled
list, with `n_train = floor(n_total * train_ratio)`,
`n_val = floor(n_total * val_ratio)`,
`n_test = n_total - n_train - n_val`, `n_train + n_val + n_test =
n_total`, the three slices concatenating back to the shuffled list, and
the shuffled list a permutation of the valid pairs — so every valid
pair lands in exactly one split. -/
theorem C8_splitter_slices (files : List SrcFile)
    (shuffle : List SrcFile → List SrcFile) (train_ratio val_ratio : ℚ)
    (h1 : 0 < train_ratio) (h2 : train_ratio < 1)
    (h3 : 0 < val_ratio) (h4 : val_ratio < 1)
    (h5 : train_ratio + val_ratio < 1)
    (hne : validImages files ≠ [])
    (hperm : (shuffle (validImages files)).Perm (validImages files))
    (ps : List SrcFile) (hps : ps = shuffle (validImages files))
    (n_train n_val n_test : Nat)
    (htrain : n_train = (⌊(ps.length : ℚ) * train_ratio⌋).toNat)
    (hval : n_val = (⌊(ps.length : ℚ) * val_ratio⌋).toNat)
    (htest : n_test = ps.length - n_train - n_val) :
    split_dataset files shuffle train_ratio val_ratio =
      Except.ok (ps.take n_train, (ps.drop n_train).take n_val,
        ps.drop (n_train + n_val)) ∧
    (ps.take n_train).length = n_train ∧
    ((ps.drop n_train).take n_val).length = n_val ∧
    (ps.drop (n_train + n_val)).length = n_test ∧
    n_train + n_val + n_test = ps.length ∧
    ps.take n_train ++ ((ps.drop n_train).take n_val ++
      ps.drop (n_train + n_val)) = ps ∧
    ps.Perm (validImages files) := by
  subst hps
  subst htrain
  subst hval
  subst htest
  have himg : imagePaths files ≠ [] := by
    intro h
    exact hne (by simp [validImages, h])
  have hlen : (shuffle (validImages files)).length
      = (validImages files).length := hperm.length_eq
  have hpos : 0 < (validImages files).length := List.length_pos.mpr hne
  have hposQ : (0:ℚ) < ((shuffle (validImages files)).length : ℚ) := by
    rw [hlen]
    exact_mod_cast hpos
  have ha0 : (0:ℤ) ≤ ⌊((shuffle (validImages files)).length : ℚ) * train_ratio⌋ :=
    Int.floor_nonneg.mpr (le_of_lt (mul_pos hposQ h1))
  have hb0 : (0:ℤ) ≤ ⌊((shuffle (validImages files)).length : ℚ) * val_ratio⌋ :=
    Int.floor_nonneg.mpr (le_of_lt (mul_pos hposQ h3))
  have ha : ⌊((shuffle (validImages files)).length : ℚ) * train_ratio⌋
      < ((shuffle (validImages files)).length : ℤ) := by
    rw [Int.floor_lt]
    push_cast
    exact mul_lt_of_lt_one_right hposQ h2
  have hb : ⌊((shuffle (validImages files)).length : ℚ) * val_ratio⌋
      < ((shuffle (validImages files)).length : ℤ) := by
    rw [Int.floor_lt]
    push_cast
    exact mul_lt_of_lt_one_right hposQ h4
  have hab : ⌊((shuffle (validImages files)).length : ℚ) * train_ratio⌋
        + ⌊((shuffle (validImages files)).length : ℚ) * val_ratio⌋
      < ((shuffle (validImages files)).length : ℤ) := by
    have hle : ⌊((shuffle (validImages files)).length : ℚ) * train_ratio⌋
          + ⌊((shuffle (validImages files)).length : ℚ) * val_ratio⌋
        ≤ ⌊((shuffle (validImages files)).length : ℚ) * train_ratio
          + ((shuffle (validImages files)).length : ℚ) * val_ratio⌋ := by
      rw [Int.le_floor]
      push_cast
      exact add_le_add (Int.floor_le _) (Int.floor_le _)
    have hlt : ⌊((shuffle (validImages files)).length : ℚ) * train_ratio
          + ((shuffle (validImages files)).length : ℚ) * val_ratio⌋
        < ((shuffle (validImages files)).length : ℤ) := by
      rw [Int.floor_lt]
      push_cast
      rw [← mul_add]
      exact mul_lt_of_lt_one_right hposQ h5
    omega
  refine ⟨?_, ?_, ?_, ?_, ?_, ?_, hperm⟩
  · rw [split_dataset]
    rw [if_neg (not_not_intro ⟨h1, h2, h3, h4⟩), if_neg (not_not_intro h5),
      if_neg (fun hc => himg (List.isEmpty_iff.mp hc)),
      if_neg (fun hc => hne (List.isEmpty_iff.mp hc))]
  · rw [List.length_take]
    omega
  · rw [List.length_take, List.length_drop]
    omega
  · rw [List.length_drop]
    omega
  · omega
  · rw [← List.drop_drop, List.take_append_drop, List.take_append_drop]

/-- C8 witness: ten valid pairs split with ratios 0.7 / 0.15 and the
identity shuffle give slices of sizes 7, 1, 2 (spec scenario D). -/
theorem C8_splitter_slices_witness :
    split_dataset tenFiles id (7/10) (3/20) =
      Except.ok (tenFiles.take 7, (tenFiles.drop 7).take 1,
        tenFiles.drop (7 + 1)) ∧
    (tenFiles.take 7).length = 7 ∧
    ((tenFiles.drop 7).take 1).length = 1 ∧
    (tenFiles.drop (7 + 1)).length = 2 ∧
    7 + 1 + 2 = tenFiles.length ∧
    tenFiles.take 7 ++ ((tenFiles.drop 7).take 1 ++ tenFiles.drop (7 + 1))
      = tenFiles ∧
    tenFiles.Perm (validImages tenFiles) := by
  have hv : validImages tenFiles = tenFiles := by decide
  have hlen : tenFiles.length = 10 := rfl
  exact C8_splitter_slices tenFiles id (7/10) (3/20)
    (by norm_num) (by norm_num) (by norm_num) (by norm_num) (by norm_num)
    (by rw [hv]; exact List.cons_ne_nil _ _)
    (by rw [hv]; exact List.Perm.refl _)
    tenFiles (by rw [hv]; rfl)
    7 1 2
    (by rw [hlen]; norm_num; try rfl)
    (by rw [hlen]; norm_num; try rfl)
    (by rw [hlen])

/-- C9: ratio pairs violating the constraints make `split_dataset`
fail its validation with a ratio error, and no directory is created and
no file is copied: the run performs no file-system action at all. -/
theorem C9_ratio_validation (files : List SrcFile)
    (shuffle : List SrcFile → List SrcFile) (train_ratio val_ratio : ℚ)
    (hbad : ¬ (0 < train_ratio ∧ train_ratio < 1 ∧
        0 < val_ratio ∧ val_ratio < 1) ∨ 1 ≤ train_ratio + val_ratio) :
    (split_dataset files shuffle train_ratio val_ratio
        = .error .ratioRange ∨
     split_dataset files shuffle train_ratio val_ratio
        = .error .ratioSum) ∧
    split_effects files shuffle train_ratio val_ratio = [] := by
  by_cases h : 0 < train_ratio ∧ train_ratio < 1 ∧ 0 < val_ratio ∧ val_ratio < 1
  · have hsum : ¬ (train_ratio + val_ratio < 1) := by
      rcases hbad with hb | hb
      · exact absurd h hb
      · exact not_lt.mpr hb
    have heq : split_dataset files shuffle train_ratio val_ratio
        = .error .ratioSum := by
      rw [split_dataset, if_neg (not_not_intro h), if_pos hsum]
    exact ⟨Or.inr heq, by rw [split_effects, heq]⟩
  · have heq : split_dataset files shuffle train_ratio val_ratio
        = .error .ratioRange := by
      rw [split_dataset, if_pos h]
    exact ⟨Or.inl heq, by rw [split_effects, heq]⟩

/-- C9 witness: ratios 0.8 and 0.3 sum to more than 1 and are
rejected without any file-system action. -/
theorem C9_ratio_validation_witness :
    (split_dataset tenFiles id (4/5) (3/10) = .error .ratioRange ∨
     split_dataset tenFiles id (4/5) (3/10) = .error .ratioSum) ∧
    split_effects tenFiles id (4/5) (3/10) = [] :=
  C9_ratio_validation tenFiles id (4/5) (3/10) (Or.inr (by norm_num))

/-! ### Extension handling: cleaner versus splitter -/

theorem isPrefixB_iff : ∀ (p l : List Char),
    isPrefixB p l = true ↔ ∃ t, l = p ++ t
  | [], l => by simp [isPrefixB]
  | a :: as, [] => by simp [isPrefixB]
  | a :: as, b :: bs => by
    rw [isPrefixB, Bool.and_eq_true, beq_iff_eq, isPrefixB_iff as bs]
    constructor
    · rintro ⟨rfl, t, rfl⟩
      exact ⟨t, rfl⟩
    · rintro ⟨t, ht⟩
      injection ht with hab ht
      exact ⟨hab.symm, t, ht⟩

theorem endsWithL_iff (name pat : List Char) :
    endsWithL name pat = true ↔ ∃ pre, name = pre ++ pat := by
  rw [endsWithL, isPrefixB_iff]
  constructor
  · rintro ⟨t, ht⟩
    refine ⟨t.reverse, ?_⟩
    have := congrArg List.reverse ht
    simpa using this
  · rintro ⟨pre, rfl⟩
    exact ⟨pre.reverse, by simp⟩

theorem afterLastDot_append_jpg (pre : List Char) :
    afterLastDot (pre ++ ['.', 'j', 'p', 'g']) = ['j', 'p', 'g'] := by
  simp +decide [afterLastDot, List.takeWhile_cons]

theorem afterLastDot_append_jpeg (pre : List Char) :
    afterLastDot (pre ++ ['.', 'j', 'p', 'e', 'g']) = ['j', 'p', 'e', 'g'] := by
  simp +decide [afterLastDot, List.takeWhile_cons]

theorem pySuffix_ends_jpg (pre : List Char) (hpre : pre ≠ []) :
    pySuffix (pre ++ ['.', 'j', 'p', 'g']) = ['.', 'j', 'p', 'g'] := by
  have hlen : pre.length ≠ 0 := fun h => hpre (List.length_eq_zero.mp h)
  simp only [pySuffix, afterLastDot_append_jpg, List.length_append,
    List.length_cons, List.length_nil]
  split_ifs with hA hB hC
  · exfalso
    revert hA
    omega
  · exact hB.elim
  · exfalso
    revert hC hlen
    omega
  · rfl

theorem pySuffix_ends_jpeg (pre : List Char) (hpre : pre ≠ []) :
    pySuffix (pre ++ ['.', 'j', 'p', 'e', 'g']) = ['.', 'j', 'p', 'e', 'g'] := by
  have hlen : pre.length ≠ 0 := fun h => hpre (List.length_eq_zero.mp h)
  simp only [pySuffix, afterLastDot_append_jpeg, List.length_append,
    List.length_cons, List.length_nil]
  split_ifs with hA hB hC
  · exfalso
    revert hA
    omega
  · exact hB.elim
  · exfalso
    revert hC hlen
    omega
  · rfl

theorem pySuffix_of_endsWith_jpg (name : List Char)
    (h : endsWithL name ['.', 'j', 'p', 'g'] = true) :
    pySuffix name = ['.', 'j', 'p', 'g'] ∨ pySuffix name = [] := by
  obtain ⟨pre, rfl⟩ := (endsWithL_iff name _).mp h
  by_cases hpre : pre = []
  · subst hpre
    right
    decide
  · left
    exact pySuffix_ends_jpg pre hpre

theorem pySuffix_of_endsWith_jpeg (name : List Char)
    (h : endsWithL name ['.', 'j', 'p', 'e', 'g'] = true) :
    pySuffix name = ['.', 'j', 'p', 'e', 'g'] ∨ pySuffix name = [] := by
  obtain ⟨pre, rfl⟩ := (endsWithL_iff name _).mp h
  by_cases hpre : pre = []
  · subst hpre
    right
    decide
  · left
    exact pySuffix_ends_jpeg pre hpre

/-- A filename the cleaner discovers whose extension is `.png`, or
whose extension changes under lower-casing, matches neither of the
splitter glob patterns. -/
theorem png_or_upper_not_globbed (name : List Char)
    (hext : extOk name = true)
    (hflag : lowerStr (pySuffix name) = ['.', 'p', 'n', 'g'] ∨
      pySuffix name ≠ lowerStr (pySuffix name)) :
    globJpg name = false ∧ globJpeg name = false := by
  constructor
  · by_contra hg
    rw [Bool.not_eq_false] at hg
    rcases pySuffix_of_endsWith_jpg name hg with hs | hs
    · rw [hs] at hflag
      rcases hflag with h | h
      · exact absurd h (by decide)
      · rw [show lowerStr ['.', 'j', 'p', 'g'] = ['.', 'j', 'p', 'g']
          from by decide] at h
        exact absurd rfl h
    · rw [extOk, hs] at hext
      exact absurd hext (by decide)
  · by_contra hg
    rw [Bool.not_eq_false] at hg
    rcases pySuffix_of_endsWith_jpeg name hg with hs | hs
    · rw [hs] at hflag
      rcases hflag with h | h
      · exact absurd h (by decide)
      · rw [show lowerStr ['.', 'j', 'p', 'e', 'g'] = ['.', 'j', 'p', 'e', 'g']
          from by decide] at h
        exact absurd rfl h
    · rw [extOk, hs] at hext
      exact absurd hext (by decide)

theorem mem_acceptWrites_name (cfg : CleanCfg) (img : SrcImage) (o : OutFile)
    (h : o ∈ acceptWrites cfg img) : outFileName o = img.name := by
  by_cases h1 : cfg.apply_enhancement
  · by_cases h2 : img.enhanceOk
    · simp [acceptWrites, h1, h2] at h
      rcases h with rfl | rfl <;> rfl
    · simp [acceptWrites, h1, h2] at h
      rcases h with rfl | rfl <;> rfl
  · simp [acceptWrites, h1] at h
    rcases h with rfl | rfl <;> rfl

theorem runClean_outFiles_name (cfg : CleanCfg) (files : List SrcImage) :
    ∀ (seen : List Nat) (s : Stats) (o : OutFile),
      o ∈ (runClean cfg seen s files).outFiles →
      ∃ img ∈ files, outFileName o = img.name := by
  induction files with
  | nil =>
    intro seen s o h
    simp [runClean] at h
  | cons img rest ih =>
    intro seen s o h
    simp only [runClean, List.mem_append] at h
    rcases h with h' | h'
    · refine ⟨img, List.mem_cons_self _ _, ?_⟩
      rw [writesFor] at h'
      split_ifs at h'
      · exact mem_acceptWrites_name cfg img o h'
      · simp at h'
    · obtain ⟨img', hmem, hname⟩ := ih _ _ o h'
      exact ⟨img', List.mem_cons_of_mem _ hmem, hname⟩

/-- Every image or label file the cleaner writes carries the name of a
discovered source image, so its lower-cased suffix is one of the three
accepted extensions. -/
theorem clean_outFiles_extOk (cfg : CleanCfg) (listing : List SrcImage)
    (o : OutFile) (ho : o ∈ (clean_dataset cfg listing).outFiles) :
    extOk (outFileName o) = true := by
  obtain ⟨img, hmem, hname⟩ :=
    runClean_outFiles_name cfg (discovered listing) _ _ o ho
  rw [hname]
  exact (List.mem_filter.mp hmem).2

/-- Any pair placed into one of the three splits was enumerated by the
splitter, so its name matches one of the two glob patterns. -/
theorem split_ok_mem (files : List SrcFile)
    (shuffle : List SrcFile → List SrcFile) (train_ratio val_ratio : ℚ)
    (t v s : List SrcFile)
    (hok : split_dataset files shuffle train_ratio val_ratio = .ok (t, v, s))
    (hsh : ∀ (l : List SrcFile) (x : SrcFile), x ∈ shuffle l → x ∈ l)
    (p : SrcFile) (hp : p ∈ t ++ v ++ s) :
    globJpg p.name = true ∨ globJpeg p.name = true := by
  rw [split_dataset] at hok
  split_ifs at hok
  simp only [Except.ok.injEq, Prod.mk.injEq] at hok
  obtain ⟨ht, hv2, hs2⟩ := hok
  subst ht
  subst hv2
  subst hs2
  have hmem : p ∈ shuffle (validImages files) := by
    rcases List.mem_append.mp hp with hp' | hp'
    · rcases List.mem_append.mp hp' with hp'' | hp''
      · exact List.mem_of_mem_take hp''
      · exact List.mem_of_mem_drop (List.mem_of_mem_take hp'')
    · exact List.mem_of_mem_drop hp'
  have h2 := hsh _ _ hmem
  rw [validImages] at h2
  have h3 : p ∈ imagePaths files := (List.mem_filter.mp h2).1
  rw [imagePaths] at h3
  have h4 := (mem_sortPaths _ _).mp h3
  rcases List.mem_append.mp h4 with h5 | h5
  · exact Or.inl (List.mem_filter.mp h5).2
  · exact Or.inr (List.mem_filter.mp h5).2

/-- C10: the splitter enumerates only names matching the lowercase
patterns `*.jpg` and `*.jpeg`, while the cleaner accepts `.jpg`,
`.jpeg` and `.png` case-insensitively; consequently a file the cleaner
wrote whose name has a `.png` extension, or an extension that
lower-casing changes (an uppercase extension), is assigned to no split
of any splitter run: it appears in none of train, val or test. -/
theorem C10_extension_mismatch (cfg : CleanCfg) (listing : List SrcImage)
    (o : OutFile) (ho : o ∈ (clean_dataset cfg listing).outFiles)
    (hflag : lowerStr (pySuffix (outFileName o)) = ['.', 'p', 'n', 'g'] ∨
      pySuffix (outFileName o) ≠ lowerStr (pySuffix (outFileName o)))
    (files : List SrcFile) (shuffle : List SrcFile → List SrcFile)
    (train_ratio val_ratio : ℚ)
    (hsh : ∀ (l : List SrcFile) (x : SrcFile), x ∈ shuffle l → x ∈ l)
    (t v s : List SrcFile)
    (hok : split_dataset files shuffle train_ratio val_ratio = .ok (t, v, s)) :
    SrcFile.mk (outFileName o) true ∉ t ++ v ++ s ∧
    SrcFile.mk (outFileName o) false ∉ t ++ v ++ s := by
  have hext := clean_outFiles_extOk cfg listing o ho
  have hglob := png_or_upper_not_globbed (outFileName o) hext hflag
  constructor
  · intro hmem
    rcases split_ok_mem files shuffle train_ratio val_ratio t v s hok hsh
      _ hmem with hg | hg
    · rw [hglob.1] at hg
      exact absurd hg (by simp)
    · rw [hglob.2] at hg
      exact absurd hg (by simp)
  · intro hmem
    rcases split_ok_mem files shuffle train_ratio val_ratio t v s hok hsh
      _ hmem with hg | hg
    · rw [hglob.1] at hg
      exact absurd hg (by simp)
    · rw [hglob.2] at hg
      exact absurd hg (by simp)

/-- C10 witness: a kept `.png` image of a cleaning run appears in no
split of a concrete splitter run. -/
theorem C10_extension_mismatch_witness :
    SrcFile.mk (outFileName (OutFile.imgCopy imgPng.name imgPng.hash)) true
      ∉ ([] : List SrcFile) ++ [] ++ [⟨"a.jpg".toList, true⟩] ∧
    SrcFile.mk (outFileName (OutFile.imgCopy imgPng.name imgPng.hash)) false
      ∉ ([] : List SrcFile) ++ [] ++ [⟨"a.jpg".toList, true⟩] := by
  have hdisc : discovered [imgPng] = [imgPng] := by
    simp +decide [discovered]
  have h1 : processImage defaultCfg [] imgPng = (.kept, [7]) := by
    simp only [processImage, imgPng, validate_lbl0, calculate_brightness,
      Option.isNone_some, Bool.false_eq_true, if_false, List.not_mem_nil]
    norm_num [defaultCfg]
  have ho : OutFile.imgCopy imgPng.name imgPng.hash
      ∈ (clean_dataset defaultCfg [imgPng]).outFiles := by
    simp only [clean_dataset, hdisc, runClean, h1, writesFor]
    simp [acceptWrites, defaultCfg]
  have hva : validImages filesWithPng = [⟨"a.jpg".toList, true⟩] := by decide
  have hok : split_dataset filesWithPng id (1/2) (1/4)
      = Except.ok ([], [], [⟨"a.jpg".toList, true⟩]) := by
    rw [split_dataset,
      if_neg (not_not_intro ⟨by norm_num, by norm_num, by norm_num, by norm_num⟩),
      if_neg (not_not_intro (by norm_num)), if_neg (by decide), if_neg (by decide)]
    rw [hva]
    norm_num
  exact C10_extension_mismatch defaultCfg [imgPng] _ ho (Or.inl (by decide))
    filesWithPng id (1/2) (1/4) (fun l x h => h) _ _ _ hok

end LaptopDS
